import Mathlib

/-!
Shallow embedding of `throttle-async-function` (the variant with hit-rate
statistics and the rejected-promise check, i.e. the file whose wrapper reads

  throttled = async (...args) => { hitRateStatistics.totalCalls += 1; ... }

together with its helpers `callWithRetry`, `clearCache`, `reportHitRate` and
`isRejected`).

Modelling conventions:
* JavaScript values that can appear as arguments or results are modelled by
  the inductive `JsValue` (numbers restricted to integers; `undefined` is a
  first-class value, as in JS).
* The md5 digest applied to the serialized argument list is a function of the
  serialized string, so key-equality statements are unaffected by omitting the
  digest step; the model's cache key is the `json-stable-stringify` output
  itself.  (The digest can only introduce further key coincidences, which the
  theorems below never rule out.)
* Time is a `Nat` number of milliseconds carried in the state; `lru-cache`
  treats an entry as present iff `now - setTime ≤ maxAge`.  The claims never
  configure `maxCachedItems`, which defaults to `Infinity`, so the capacity
  bound / LRU eviction of `lru-cache` is not exercised and the two tables are
  modelled as association lists (newest entry first, lookup takes the newest).
* The event loop is modelled sequentially: every dispatched producer call
  settles before the next operation runs, so a cached promise is represented
  by its settled `Outcome`.  `await isRejected(p)` on a settled promise `p`
  returns whether `p` was rejected, which is how line 58 is embedded.
* The producer (`asyncFunction`) is an oracle `args → callIndex → Except`,
  where `callIndex` is the number of producer calls made so far; the state
  counts producer calls so that call-counting claims can be stated.
-/

/-- A JavaScript value, as far as `json-stable-stringify` cares: `undefined`,
`null`, booleans, (integer) numbers, strings, arrays and objects. -/
inductive JsValue where
  | undefined : JsValue
  | null : JsValue
  | bool (b : Bool) : JsValue
  | num (n : Int) : JsValue
  | str (s : String) : JsValue
  | arr (elems : List JsValue) : JsValue
  | obj (fields : List (String × JsValue)) : JsValue
deriving Repr

/-- JSON escaping of a single character, as in `JSON.stringify` (the rare
control characters that JSON renders as a unicode escape are kept verbatim;
no claim exercises them). -/
def escapeChar (c : Char) : String :=
  if c = '"' then "\\\""
  else if c = '\\' then "\\\\"
  else if c = '\n' then "\\n"
  else if c = '\r' then "\\r"
  else if c = '\t' then "\\t"
  else String.singleton c

/-- `JSON.stringify` of a string literal. -/
def jsonQuote (s : String) : String :=
  "\"" ++ String.join (s.toList.map escapeChar) ++ "\""

/-- Lexicographic comparison of character lists by code point; this is the
default JavaScript `Array.prototype.sort` string comparison used by
`json-stable-stringify` on object keys. -/
def leChars : List Char → List Char → Bool
  | [], _ => true
  | _ :: _, [] => false
  | a :: as, b :: bs =>
    if a.toNat < b.toNat then true
    else if b.toNat < a.toNat then false
    else leChars as bs

/-- String comparison by code points. -/
def strLeB (a b : String) : Bool := leChars a.data b.data

/-- Ordering of object fields: by key. -/
def fieldLe {α : Type} (p q : String × α) : Prop := strLeB p.1 q.1 = true

instance {α : Type} : DecidableRel (@fieldLe α) :=
  fun p q => instDecidableEqBool (strLeB p.1 q.1) true

/-- Sort an association list by its string keys (stably), as
`Object.keys(node).sort(cmp)` does in `json-stable-stringify`
(JavaScript's sort is stable). -/
def sortFields {α : Type} : List (String × α) → List (String × α) :=
  List.insertionSort fieldLe

/-- Render the (already serialized, already sorted) fields of an object,
skipping fields whose value serialized to `undefined` — the
`if (!value) continue` line of `json-stable-stringify`. -/
def renderFields (l : List (String × Option String)) : List String :=
  l.filterMap (fun f => f.2.map (fun sv => jsonQuote f.1 ++ ":" ++ sv))

mutual
/-- `json-stable-stringify` with default options: object keys sorted;
`undefined` serializes to nothing (`none`), becomes `null` inside arrays and
is skipped inside objects.  The source sorts the keys of an object before
serializing each field; since the comparator looks only at the keys and the
sort is stable, serializing every field first and then sorting by key (as
done here, to keep the recursion structural) produces the same output. -/
def stableStringify : JsValue → Option String
  | .undefined => none
  | .null => some "null"
  | .bool true => some "true"
  | .bool false => some "false"
  | .num n => some (toString n)
  | .str s => some (jsonQuote s)
  | .arr xs => some ("[" ++ String.intercalate "," (stringifyElems xs) ++ "]")
  | .obj fs =>
      some ("\x7b" ++ String.intercalate ","
        (renderFields (sortFields (stringifyFields fs))) ++ "\x7d")

/-- Array elements: an element serializing to `undefined` is rendered as
`null` (the `|| 'null'` in the source). -/
def stringifyElems : List JsValue → List String
  | [] => []
  | x :: xs => ((stableStringify x).getD "null") :: stringifyElems xs

/-- Serialize each field's value, keeping the key. -/
def stringifyFields : List (String × JsValue) → List (String × Option String)
  | [] => []
  | f :: fs => (f.1, stableStringify f.2) :: stringifyFields fs
end

mutual
/-- Canonical form of a `JsValue`: object fields recursively sorted by key.
Two values are deeply structurally equal up to object-field ordering iff
their canonical forms are equal; this is the formal reading of the spec's
argument-equivalence. -/
def canon : JsValue → JsValue
  | .arr xs => .arr (canonElems xs)
  | .obj fs => .obj (sortFields (canonFields fs))
  | v => v

def canonElems : List JsValue → List JsValue
  | [] => []
  | x :: xs => canon x :: canonElems xs

def canonFields : List (String × JsValue) → List (String × JsValue)
  | [] => []
  | f :: fs => (f.1, canon f.2) :: canonFields fs
end

/-- The cache key of an argument list:
`stringify(args)` from `throttled` (see the header on why the md5 step is
omitted).  A genuine JS argument list is an array, so serialization never
returns `undefined`; `getD` only supplies an unreachable default. -/
def cacheKeyOf (args : List JsValue) : String :=
  (stableStringify (.arr args)).getD "undefined"

/-- The settled state of a promise: resolved with a value or rejected with an
error.  In the sequential event-loop model every dispatched call settles
before the next operation runs, so the `promiseCache` stores outcomes. -/
inductive Outcome where
  | resolved (v : JsValue) : Outcome
  | rejected (e : String) : Outcome
deriving Repr

/-- The source's `isRejected` helper (`promise.catch(...)` racing a
`setTimeout 0`): on a settled promise it reports whether it was rejected. -/
def isRejected : Outcome → Bool
  | .resolved _ => false
  | .rejected _ => true

/-- Wrapper configuration, with the source's default values.  `producer` is
the wrapped `asyncFunction`, given as an oracle from the argument list and
the index of the producer call (how many producer calls happened before it)
to its settled outcome.  `maxCachedItems` defaults to `Infinity` and no claim
configures it, so it is not part of the model (see the header). -/
structure Config where
  cacheRefreshPeriod : Nat := 60000
  cacheMaxAge : Nat := 300000
  retryCount : Nat := 0
  retryDelay : Nat := 200
  producer : List JsValue → Nat → Except String JsValue

/-- A TTL cache: association list of key, insertion time and value, newest
entry first (an `lru-cache` holds one entry per key; re-`set` replaces, which
cons-with-shadowing models observationally). -/
def TtlCache (α : Type) : Type := List (String × Nat × α)

/-- The raw entry for a key (newest first), ignoring expiry. -/
def cacheFind {α : Type} (c : TtlCache α) (k : String) : Option (Nat × α) :=
  match c with
  | [] => none
  | e :: rest => if e.1 = k then some e.2 else cacheFind rest k

/-- `lru-cache` `get`/`has` at time `now` with time-to-live `ttl`: an entry
set at time `t` is present iff `now - t ≤ ttl` (`lru-cache` marks it stale
when its age exceeds `maxAge`). -/
def lruGet {α : Type} (c : TtlCache α) (k : String) (now ttl : Nat) : Option α :=
  match cacheFind c k with
  | some (t, v) => if now - t ≤ ttl then some v else none
  | none => none

/-- `lru-cache` `set` at time `now`. -/
def cacheSet {α : Type} (c : TtlCache α) (k : String) (now : Nat) (v : α) :
    TtlCache α :=
  (k, now, v) :: c

/-- The closure state of one wrapper instance: the two caches, the hit-rate
counters (`hitRateStatistics`), plus the model's clock and a count of
producer calls made so far (the oracle index). -/
structure LState where
  promiseCache : TtlCache Outcome
  resultCache : TtlCache JsValue
  totalCalls : Nat := 0
  gotThroughCalls : Nat := 0
  producerCalls : Nat := 0
  now : Nat := 0

/-- A freshly constructed wrapper: both caches empty, counters zero. -/
def initState : LState := { promiseCache := [], resultCache := [] }

/-- Lines 36–38 of the source: on producer success the result is written
into the result cache (whatever that table currently holds). -/
def recordSuccess (key : String) (v : JsValue) (s : LState) : LState :=
  { s with resultCache := cacheSet s.resultCache key s.now v }

/-- `callWithRetry(cacheKey, args, retryCount)`: call the producer; on
success record the result; on failure serve an unexpired cached result if
one exists, else retry after `retryDelay` (a wait of 0 is skipped, i.e.
advances the clock by 0) while retries remain, else reject with the error.
The producer is consulted at the current call index, which is then
incremented. -/
def callWithRetry (cfg : Config) (key : String) (args : List JsValue) :
    Nat → LState → Outcome × LState
  | retries, s =>
    let idx := s.producerCalls
    let s1 : LState := { s with producerCalls := idx + 1 }
    match cfg.producer args idx with
    | .ok v => (.resolved v, recordSuccess key v s1)
    | .error e =>
      match lruGet s1.resultCache key s1.now cfg.cacheMaxAge with
      | some cachedResult => (.resolved cachedResult, s1)
      | none =>
        match retries with
        | r + 1 =>
            callWithRetry cfg key args r { s1 with now := s1.now + cfg.retryDelay }
        | 0 => (.rejected e, s1)

/-- The dispatch arm of `throttled` (lines 59–64 when a new `callWithRetry`
is started): the result-cache short-circuit check on lines 63–64 runs
synchronously at dispatch time, before the dispatched call's first
suspension, so it reads the table as it is at dispatch; the promise-cache
entry is stamped with the dispatch time. -/
def dispatchAndReturn (cfg : Config) (key : String) (args : List JsValue)
    (s : LState) : Outcome × LState :=
  let t0 := s.now
  let resultAtDispatch := lruGet s.resultCache key t0 cfg.cacheMaxAge
  let s1 : LState := { s with gotThroughCalls := s.gotThroughCalls + 1 }
  let r := callWithRetry cfg key args cfg.retryCount s1
  let s2 : LState := { r.2 with promiseCache := cacheSet r.2.promiseCache key t0 r.1 }
  (match resultAtDispatch with
   | some v => .resolved v
   | none => r.1, s2)

/-- `throttled(...args)` (lines 53–65): bump `totalCalls`; derive the key;
if there is no live promise-cache entry, or the cached promise is already
rejected, dispatch a fresh `callWithRetry` (bumping `gotThroughCalls`);
finally return the unexpired cached result if there is one, else the cached
promise's outcome. -/
def invoke (cfg : Config) (args : List JsValue) (s : LState) :
    Outcome × LState :=
  let s0 : LState := { s with totalCalls := s.totalCalls + 1 }
  let key := cacheKeyOf args
  match lruGet s0.promiseCache key s0.now cfg.cacheRefreshPeriod with
  | none => dispatchAndReturn cfg key args s0
  | some o =>
    if isRejected o then dispatchAndReturn cfg key args s0
    else
      match lruGet s0.resultCache key s0.now cfg.cacheMaxAge with
      | some v => (.resolved v, s0)
      | none => (o, s0)

/-- `throttled.clearCache()` (lines 66–69): reset both caches in place. -/
def clearCache (s : LState) : LState :=
  { s with promiseCache := [], resultCache := [] }

/-- The snapshot handed to `hitRateReportHandler`. -/
structure Stats where
  totalCalls : Nat
  gotThroughCalls : Nat
deriving Repr, DecidableEq

/-- One tick of `reportHitRate` (lines 22–26): the handler receives a copy
of the current statistics, then the statistics are reset to zero (the timer
then re-arms itself, modelled by applying this function again at the next
tick). -/
def reportHitRate (s : LState) : Stats × LState :=
  (⟨s.totalCalls, s.gotThroughCalls⟩,
   { s with totalCalls := 0, gotThroughCalls := 0 })

/-- An externally scheduled operation on the wrapper: an invocation at an
absolute time, or a `clearCache` call. -/
inductive Op where
  | call (t : Nat) (args : List JsValue) : Op
  | clear : Op

/-- Run one operation (an invocation sets the clock to its time). -/
def stepOp (cfg : Config) (s : LState) : Op → LState
  | .call t args => (invoke cfg args { s with now := t }).2
  | .clear => clearCache s

/-- Run a schedule of operations. -/
def runOps (cfg : Config) (s : LState) (ops : List Op) : LState :=
  ops.foldl (stepOp cfg) s

/-- The number of invocations in a schedule. -/
def countCalls : List Op → Nat
  | [] => 0
  | .call _ _ :: ops => countCalls ops + 1
  | .clear :: ops => countCalls ops

/-- JavaScript falsiness of a value (`undefined`, `null`, `false`, `0` and
the empty string are falsy).  The source never branches on the truthiness of
a cached result — presence is decided by `resultCache.has` — and C9 says
falsy results are served like any other; `jsFalsy` exists to state that. -/
def jsFalsy : JsValue → Bool
  | .undefined => true
  | .null => true
  | .bool false => true
  | .num 0 => true
  | .str "" => true
  | _ => false

/-! ## Concrete fixtures (used by the witness theorems below)

`"[]"` is `cacheKeyOf []`, the key of an empty argument list. -/

/-- A producer that always fails, with two retries and a 7 ms pause. -/
def cfgBoom : Config := { retryCount := 2, retryDelay := 7, producer := fun _ _ => Except.error "boom" }

/-- A producer that always fails; 100 ms refresh window, 1000 ms max age. -/
def cfgDown : Config := { cacheRefreshPeriod := 100, cacheMaxAge := 1000, producer := fun _ _ => Except.error "down" }

/-- A producer that always resolves with `7`. -/
def cfgOk7 : Config := { producer := fun _ _ => Except.ok (JsValue.num 7) }

/-- State with a result entry `14` for the empty argument list, no pending. -/
def stRes14 : LState := { promiseCache := [], resultCache := [("[]", 0, JsValue.num 14)] }

/-- State set at time 0 observed at time 200: the pending entry is stale for
a 100 ms window, the result entry live for a 1000 ms max age. -/
def stCached5 : LState := { promiseCache := [("[]", 0, Outcome.resolved (JsValue.num 5))], resultCache := [("[]", 0, JsValue.num 5)], now := 200 }

/-- A warm state (one successful call performed at time 0). -/
def stWarm : LState := { promiseCache := [("[]", 0, Outcome.resolved (JsValue.num 5))], resultCache := [("[]", 0, JsValue.num 5)], producerCalls := 1 }

/-- A producer that resolves with the falsy `0` once, then always fails. -/
def cfgFalsy : Config := { cacheRefreshPeriod := 100, cacheMaxAge := 1000, producer := fun _ i => if i = 0 then Except.ok (JsValue.num 0) else Except.error "down" }

/-! ## Basic lemmas about the model -/

theorem cacheFind_nil {α : Type} (k : String) : cacheFind ([] : TtlCache α) k = none := rfl

theorem cacheFind_cons_self {α : Type} (c : TtlCache α) (k : String) (t : Nat) (v : α) :
    cacheFind (cacheSet c k t v) k = some (t, v) := by
  simp [cacheFind, cacheSet]

theorem lruGet_of_find_none {α : Type} {c : TtlCache α} {k : String} (now ttl : Nat)
    (h : cacheFind c k = none) : lruGet c k now ttl = none := by
  simp [lruGet, h]

/-- `callWithRetry` never touches the promise cache, the call counter or the
hit-rate counters. -/
theorem callWithRetry_frame (cfg : Config) (key : String) (args : List JsValue) :
    ∀ (n : Nat) (s : LState),
      (callWithRetry cfg key args n s).2.promiseCache = s.promiseCache ∧
      (callWithRetry cfg key args n s).2.totalCalls = s.totalCalls ∧
      (callWithRetry cfg key args n s).2.gotThroughCalls = s.gotThroughCalls := by
  intro n
  induction n with
  | zero =>
    intro s
    simp only [callWithRetry]
    cases cfg.producer args s.producerCalls with
    | ok v => simp [recordSuccess]
    | error e => cases lruGet s.resultCache key s.now cfg.cacheMaxAge <;> simp
  | succ m ih =>
    intro s
    rw [callWithRetry]
    cases cfg.producer args s.producerCalls with
    | ok v => simp [recordSuccess]
    | error e =>
      cases lruGet s.resultCache key s.now cfg.cacheMaxAge with
      | some v => simp
      | none => simpa using ih _

theorem lruGet_of_find_fresh {α : Type} {c : TtlCache α} {k : String} {t : Nat} {v : α}
    {now ttl : Nat} (h : cacheFind c k = some (t, v)) (hf : now - t ≤ ttl) :
    lruGet c k now ttl = some v := by
  simp [lruGet, h, hf]

theorem lruGet_of_find_stale {α : Type} {c : TtlCache α} {k : String} {t : Nat} {v : α}
    {now ttl : Nat} (h : cacheFind c k = some (t, v)) (hf : ¬ now - t ≤ ttl) :
    lruGet c k now ttl = none := by
  simp [lruGet, h, hf]

theorem lruGet_some_inv {α : Type} {c : TtlCache α} {k : String} {now ttl : Nat}
    {v : α} (h : lruGet c k now ttl = some v) :
    ∃ t, cacheFind c k = some (t, v) ∧ now - t ≤ ttl := by
  unfold lruGet at h
  cases hf : cacheFind c k with
  | none => rw [hf] at h; exact absurd h (by simp)
  | some tv =>
    obtain ⟨t, w⟩ := tv
    rw [hf] at h
    by_cases hr : now - t ≤ ttl
    · simp only [hr, if_true] at h
      obtain rfl : w = v := by simpa using h
      exact ⟨t, rfl, hr⟩
    · simp [hr] at h

/-- An invocation that finds a live, non-rejected promise-cache entry
coalesces onto it: it changes nothing but `totalCalls`. -/
theorem invoke_coalesce (cfg : Config) (args : List JsValue) (s : LState)
    (t : Nat) (o : Outcome)
    (hfind : cacheFind s.promiseCache (cacheKeyOf args) = some (t, o))
    (hfresh : s.now - t ≤ cfg.cacheRefreshPeriod)
    (hnr : isRejected o = false) :
    (invoke cfg args s).2 = { s with totalCalls := s.totalCalls + 1 } := by
  simp only [invoke]
  rw [show ({ s with totalCalls := s.totalCalls + 1 } : LState).promiseCache
      = s.promiseCache from rfl]
  rw [lruGet_of_find_fresh hfind hfresh]
  simp only [hnr, Bool.false_eq_true, if_false]
  cases lruGet s.resultCache (cacheKeyOf args) s.now cfg.cacheMaxAge <;> rfl

/-- A coalescing invocation (live, non-rejected pending entry) that also
finds an unexpired result entry returns the cached value. -/
theorem invoke_coalesce_hit (cfg : Config) (args : List JsValue) (s : LState)
    (t : Nat) (o : Outcome) (w : JsValue)
    (hfind : cacheFind s.promiseCache (cacheKeyOf args) = some (t, o))
    (hfresh : s.now - t ≤ cfg.cacheRefreshPeriod)
    (hnr : isRejected o = false)
    (hres : lruGet s.resultCache (cacheKeyOf args) s.now cfg.cacheMaxAge = some w) :
    invoke cfg args s
      = (Outcome.resolved w, { s with totalCalls := s.totalCalls + 1 }) := by
  simp only [invoke]
  rw [show ({ s with totalCalls := s.totalCalls + 1 } : LState).promiseCache
      = s.promiseCache from rfl]
  rw [lruGet_of_find_fresh hfind hfresh]
  simp only [hnr, Bool.false_eq_true, if_false]
  rw [show ({ s with totalCalls := s.totalCalls + 1 } : LState).resultCache
      = s.resultCache from rfl]
  rw [hres]

/-- An invocation that finds no live promise-cache entry dispatches. -/
theorem invoke_dispatch_none (cfg : Config) (args : List JsValue) (s : LState)
    (h : lruGet s.promiseCache (cacheKeyOf args) s.now cfg.cacheRefreshPeriod = none) :
    invoke cfg args s
      = dispatchAndReturn cfg (cacheKeyOf args) args
          { s with totalCalls := s.totalCalls + 1 } := by
  simp only [invoke]
  rw [show ({ s with totalCalls := s.totalCalls + 1 } : LState).promiseCache
      = s.promiseCache from rfl]
  rw [h]

/-- An invocation that finds a live but already-rejected promise-cache entry
also dispatches (the `await isRejected(cachedPromise)` disjunct). -/
theorem invoke_dispatch_rejected (cfg : Config) (args : List JsValue) (s : LState)
    (o : Outcome)
    (h : lruGet s.promiseCache (cacheKeyOf args) s.now cfg.cacheRefreshPeriod = some o)
    (hr : isRejected o = true) :
    invoke cfg args s
      = dispatchAndReturn cfg (cacheKeyOf args) args
          { s with totalCalls := s.totalCalls + 1 } := by
  simp only [invoke]
  rw [show ({ s with totalCalls := s.totalCalls + 1 } : LState).promiseCache
      = s.promiseCache from rfl]
  rw [h]
  simp only [hr, if_true]

/-- A dispatch whose first producer attempt succeeds: the result is recorded,
the promise entry is stamped with the dispatch time, and the caller gets the
cached short-circuit value if one was live at dispatch, else the new value. -/
theorem dispatchAndReturn_ok (cfg : Config) (key : String) (args : List JsValue)
    (s : LState) (v : JsValue)
    (hok : cfg.producer args s.producerCalls = Except.ok v) :
    dispatchAndReturn cfg key args s =
      ((match lruGet s.resultCache key s.now cfg.cacheMaxAge with
        | some w => Outcome.resolved w
        | none => Outcome.resolved v),
       { s with gotThroughCalls := s.gotThroughCalls + 1,
                producerCalls := s.producerCalls + 1,
                resultCache := cacheSet s.resultCache key s.now v,
                promiseCache := cacheSet s.promiseCache key s.now (.resolved v) }) := by
  simp only [dispatchAndReturn]
  rw [callWithRetry]
  simp only [show ({ s with gotThroughCalls := s.gotThroughCalls + 1 } : LState).producerCalls
      = s.producerCalls from rfl, hok]
  rfl

/-- A dispatch whose first producer attempt fails while an unexpired result
entry exists: no retry happens, the cached value is served, the result table
is untouched, and the promise settles resolved with the cached value. -/
theorem dispatchAndReturn_fallback (cfg : Config) (key : String) (args : List JsValue)
    (s : LState) (w : JsValue) (er : String)
    (herr : cfg.producer args s.producerCalls = Except.error er)
    (hres : lruGet s.resultCache key s.now cfg.cacheMaxAge = some w) :
    dispatchAndReturn cfg key args s =
      (Outcome.resolved w,
       { s with gotThroughCalls := s.gotThroughCalls + 1,
                producerCalls := s.producerCalls + 1,
                promiseCache := cacheSet s.promiseCache key s.now (.resolved w) }) := by
  simp only [dispatchAndReturn]
  rw [callWithRetry]
  simp only [show ({ s with gotThroughCalls := s.gotThroughCalls + 1 } : LState).producerCalls
      = s.producerCalls from rfl, herr]
  rw [show ({ s with gotThroughCalls := s.gotThroughCalls + 1, producerCalls := s.producerCalls + 1 } : LState).resultCache = s.resultCache from rfl]
  rw [hres]

/-- `callWithRetry` when every producer attempt fails and there is no result
entry at all for the key: `n + 1` producer calls happen (`n` retries), the
clock advances by `n` retry pauses, and the last attempt's error is thrown. -/
theorem callWithRetry_allFail (cfg : Config) (key : String) (args : List JsValue)
    (e : Nat → String) (herr : ∀ i, cfg.producer args i = Except.error (e i)) :
    ∀ (n : Nat) (s : LState), cacheFind s.resultCache key = none →
      callWithRetry cfg key args n s =
        (Outcome.rejected (e (s.producerCalls + n)),
         { s with producerCalls := s.producerCalls + n + 1,
                  now := s.now + n * cfg.retryDelay }) := by
  intro n
  induction n with
  | zero =>
    intro s hf
    rw [callWithRetry]
    simp only [herr]
    rw [lruGet_of_find_none _ _ hf]
    simp
  | succ m ih =>
    intro s hf
    rw [callWithRetry]
    simp only [herr]
    rw [lruGet_of_find_none _ _ hf]
    simp only []
    have hrec := ih { s with producerCalls := s.producerCalls + 1, now := s.now + cfg.retryDelay } hf
    rw [hrec]
    have h1 : s.producerCalls + 1 + m = s.producerCalls + (m + 1) := by omega
    have h3 : s.now + cfg.retryDelay + m * cfg.retryDelay
        = s.now + (m + 1) * cfg.retryDelay := by ring
    cases s
    simp only [] at h1 h3 ⊢
    rw [h1, h3]

/-- A dispatch that happens while an unexpired result entry is live returns
that entry's value, whatever the dispatched call does. -/
theorem dispatchAndReturn_shortCircuit (cfg : Config) (key : String)
    (args : List JsValue) (s : LState) (w : JsValue)
    (h : lruGet s.resultCache key s.now cfg.cacheMaxAge = some w) :
    (dispatchAndReturn cfg key args s).1 = Outcome.resolved w := by
  simp only [dispatchAndReturn, h]

/-- A dispatch when every producer attempt fails and no result entry exists
for the key: the promise settles rejected with the last attempt's error, all
`retryCount + 1` attempts happen, the clock advances by `retryCount` pauses,
the result table is untouched and the rejection is returned to the caller. -/
theorem dispatchAndReturn_allFail (cfg : Config) (key : String)
    (args : List JsValue) (s : LState) (e : Nat → String)
    (herr : ∀ i, cfg.producer args i = Except.error (e i))
    (hres : cacheFind s.resultCache key = none) :
    dispatchAndReturn cfg key args s =
      (Outcome.rejected (e (s.producerCalls + cfg.retryCount)),
       { s with gotThroughCalls := s.gotThroughCalls + 1,
                producerCalls := s.producerCalls + cfg.retryCount + 1,
                now := s.now + cfg.retryCount * cfg.retryDelay,
                promiseCache := cacheSet s.promiseCache key s.now
                  (Outcome.rejected (e (s.producerCalls + cfg.retryCount))) }) := by
  have hcw := callWithRetry_allFail cfg key args e herr cfg.retryCount
    { s with gotThroughCalls := s.gotThroughCalls + 1 } hres
  simp only [dispatchAndReturn]
  rw [lruGet_of_find_none _ _ hres, hcw]

/-- `callWithRetry` never writes the result table when every attempt fails. -/
theorem callWithRetry_resultCache_allFail (cfg : Config) (key : String)
    (args : List JsValue) (e : Nat → String)
    (herr : ∀ i, cfg.producer args i = Except.error (e i)) :
    ∀ (n : Nat) (s : LState),
      (callWithRetry cfg key args n s).2.resultCache = s.resultCache := by
  intro n
  induction n with
  | zero =>
    intro s
    rw [callWithRetry]
    simp only [herr]
    cases lruGet s.resultCache key s.now cfg.cacheMaxAge <;> rfl
  | succ m ih =>
    intro s
    rw [callWithRetry]
    simp only [herr]
    cases lruGet s.resultCache key s.now cfg.cacheMaxAge with
    | some v => rfl
    | none => simpa using ih _

/-- `dispatchAndReturn` does not change `totalCalls`. -/
theorem dispatchAndReturn_totalCalls (cfg : Config) (key : String)
    (args : List JsValue) (s : LState) :
    (dispatchAndReturn cfg key args s).2.totalCalls = s.totalCalls := by
  have h := (callWithRetry_frame cfg key args cfg.retryCount
    { s with gotThroughCalls := s.gotThroughCalls + 1 }).2.1
  simp only [dispatchAndReturn]
  simpa using h

/-- Every invocation increments `totalCalls` by exactly one. -/
theorem invoke_totalCalls (cfg : Config) (args : List JsValue) (s : LState) :
    (invoke cfg args s).2.totalCalls = s.totalCalls + 1 := by
  simp only [invoke]
  cases hp : lruGet s.promiseCache (cacheKeyOf args) s.now cfg.cacheRefreshPeriod with
  | none =>
    simpa using dispatchAndReturn_totalCalls cfg (cacheKeyOf args) args
      { s with totalCalls := s.totalCalls + 1 }
  | some o =>
    cases ho : isRejected o with
    | true =>
      simp only [ho, if_true]
      simpa using dispatchAndReturn_totalCalls cfg (cacheKeyOf args) args
        { s with totalCalls := s.totalCalls + 1 }
    | false =>
      simp only [ho, if_false]
      cases lruGet s.resultCache (cacheKeyOf args) s.now cfg.cacheMaxAge <;> simp

/-- `clearCache` leaves the counters and the clock alone. -/
theorem clearCache_frame (s : LState) :
    (clearCache s).totalCalls = s.totalCalls ∧
    (clearCache s).gotThroughCalls = s.gotThroughCalls ∧
    (clearCache s).producerCalls = s.producerCalls ∧
    (clearCache s).now = s.now := by
  simp [clearCache]

/-- Running a schedule adds exactly one `totalCalls` per invocation in it. -/
theorem runOps_totalCalls (cfg : Config) :
    ∀ (ops : List Op) (s : LState),
      (runOps cfg s ops).totalCalls = s.totalCalls + countCalls ops := by
  intro ops
  induction ops with
  | nil => intro s; simp [runOps, countCalls]
  | cons op ops ih =>
    intro s
    cases op with
    | call t args =>
      have h := ih ((invoke cfg args { s with now := t }).2)
      have h2 := invoke_totalCalls cfg args { s with now := t }
      simp only [runOps, List.foldl, stepOp] at *
      rw [h, h2]
      simp [countCalls]
      omega
    | clear =>
      have h := ih (clearCache s)
      simp only [runOps, List.foldl, stepOp] at *
      rw [h]
      simp [clearCache, countCalls]

/-! ## The claims -/

/-- C2: when a producer attempt fails but an unexpired result entry for the
key exists, `invoke` returns that previous successful result and suppresses
the error; the settled promise for the dispatch is `resolved` with the
cached value (so every caller coalesced onto the failed in-flight call
receives the cached result, never the rejection), and no retry happens. -/
theorem throttle_c2 (cfg : Config) (args : List JsValue) (s : LState)
    (v : JsValue) (er : String)
    (hpend : cacheFind s.promiseCache (cacheKeyOf args) = none)
    (hres : lruGet s.resultCache (cacheKeyOf args) s.now cfg.cacheMaxAge = some v)
    (herr : cfg.producer args s.producerCalls = Except.error er) :
    (invoke cfg args s).1 = Outcome.resolved v ∧
    cacheFind (invoke cfg args s).2.promiseCache (cacheKeyOf args)
      = some (s.now, Outcome.resolved v) ∧
    (invoke cfg args s).2.producerCalls = s.producerCalls + 1 := by
  rw [invoke_dispatch_none cfg args s (lruGet_of_find_none _ _ hpend)]
  rw [dispatchAndReturn_fallback cfg (cacheKeyOf args) args
    { s with totalCalls := s.totalCalls + 1 } v er herr hres]
  exact ⟨rfl, cacheFind_cons_self _ _ _ _, rfl⟩

/-- C2 witness: producer rejects while `14` is cached and unexpired; the
caller gets `14`, the settled promise is `resolved 14`, one attempt. -/
theorem throttle_c2_witness :
    (invoke cfgDown [] stRes14).1 = Outcome.resolved (JsValue.num 14) ∧
    cacheFind (invoke cfgDown [] stRes14).2.promiseCache "[]"
      = some (0, Outcome.resolved (JsValue.num 14)) ∧
    (invoke cfgDown [] stRes14).2.producerCalls = 1 :=
  throttle_c2 cfgDown [] stRes14 (JsValue.num 14) "down" rfl rfl rfl

/-- C3: with `retryCount = K`, an always-failing producer and no result
entry for the key at all, `invoke` makes exactly `K + 1` producer calls,
waits `retryDelay` between successive attempts (so the clock advances by
`K * retryDelay`; a zero delay skips the pauses), and fails with the
producer's (last) error. -/
theorem throttle_c3 (cfg : Config) (args : List JsValue) (s : LState)
    (e : Nat → String)
    (hres : cacheFind s.resultCache (cacheKeyOf args) = none)
    (hpend : cacheFind s.promiseCache (cacheKeyOf args) = none)
    (herr : ∀ i, cfg.producer args i = Except.error (e i)) :
    (invoke cfg args s).2.producerCalls = s.producerCalls + cfg.retryCount + 1 ∧
    (invoke cfg args s).1 = Outcome.rejected (e (s.producerCalls + cfg.retryCount)) ∧
    (invoke cfg args s).2.now = s.now + cfg.retryCount * cfg.retryDelay := by
  rw [invoke_dispatch_none cfg args s (lruGet_of_find_none _ _ hpend)]
  rw [dispatchAndReturn_allFail cfg (cacheKeyOf args) args
    { s with totalCalls := s.totalCalls + 1 } e herr hres]
  exact ⟨rfl, rfl, rfl⟩

/-- C3 witness: `retryCount = 2`, `retryDelay = 7`, always-failing producer,
empty caches: 3 producer calls, rejection with the error, clock advanced by
14 ms. -/
theorem throttle_c3_witness :
    (invoke cfgBoom [] initState).2.producerCalls = 3 ∧
    (invoke cfgBoom [] initState).1 = Outcome.rejected "boom" ∧
    (invoke cfgBoom [] initState).2.now = 14 :=
  throttle_c3 cfgBoom [] initState (fun _ => "boom") rfl rfl (fun _ => rfl)

/-- C4: if an unexpired result entry exists for the key at invocation time,
`invoke` returns that cached value, whether or not it also dispatches a
refresh, and the refresh's outcome does not affect the returned value (the
conclusion does not depend on `cfg.producer`). -/
theorem throttle_c4 (cfg : Config) (args : List JsValue) (s : LState)
    (v : JsValue)
    (h : lruGet s.resultCache (cacheKeyOf args) s.now cfg.cacheMaxAge = some v) :
    (invoke cfg args s).1 = Outcome.resolved v := by
  cases hp : lruGet s.promiseCache (cacheKeyOf args) s.now cfg.cacheRefreshPeriod with
  | none =>
    rw [invoke_dispatch_none cfg args s hp]
    exact dispatchAndReturn_shortCircuit cfg (cacheKeyOf args) args
      { s with totalCalls := s.totalCalls + 1 } v h
  | some o =>
    cases ho : isRejected o with
    | true =>
      rw [invoke_dispatch_rejected cfg args s o hp ho]
      exact dispatchAndReturn_shortCircuit cfg (cacheKeyOf args) args
        { s with totalCalls := s.totalCalls + 1 } v h
    | false =>
      simp only [invoke]
      rw [show ({ s with totalCalls := s.totalCalls + 1 } : LState).promiseCache
          = s.promiseCache from rfl]
      rw [hp]
      simp only [ho, Bool.false_eq_true, if_false]
      rw [show ({ s with totalCalls := s.totalCalls + 1 } : LState).resultCache
          = s.resultCache from rfl]
      rw [h]

/-- C4 witness: a refresh is concurrently dispatched (stale pending entry)
and would reject, yet the unexpired cached `5` is returned. -/
theorem throttle_c4_witness :
    (invoke cfgDown [] stCached5).1 = Outcome.resolved (JsValue.num 5) :=
  throttle_c4 cfgDown [] stCached5 (JsValue.num 5) rfl

/-- C5: the result table is written only on producer success — across an
invocation whose producer attempts all fail (whether the fallback is served,
retries run, or the error propagates), the result table is unchanged. -/
theorem throttle_c5 (cfg : Config) (args : List JsValue) (s : LState)
    (e : Nat → String)
    (herr : ∀ i, cfg.producer args i = Except.error (e i)) :
    (invoke cfg args s).2.resultCache = s.resultCache := by
  have hd : ∀ s' : LState,
      (dispatchAndReturn cfg (cacheKeyOf args) args s').2.resultCache
        = s'.resultCache := by
    intro s'
    have h := callWithRetry_resultCache_allFail cfg (cacheKeyOf args) args e herr
      cfg.retryCount { s' with gotThroughCalls := s'.gotThroughCalls + 1 }
    simp only [dispatchAndReturn]
    simpa using h
  cases hp : lruGet s.promiseCache (cacheKeyOf args) s.now cfg.cacheRefreshPeriod with
  | none =>
    rw [invoke_dispatch_none cfg args s hp]
    exact hd _
  | some o =>
    cases ho : isRejected o with
    | true =>
      rw [invoke_dispatch_rejected cfg args s o hp ho]
      exact hd _
    | false =>
      obtain ⟨t, hf, hfr⟩ := lruGet_some_inv hp
      rw [invoke_coalesce cfg args s t o hf hfr ho]

/-- C5 witness: always-failing producer with a stale pending entry and a
live cached `5`: the result table is exactly what it was. -/
theorem throttle_c5_witness :
    (invoke cfgDown [] stCached5).2.resultCache = [("[]", 0, JsValue.num 5)] :=
  throttle_c5 cfgDown [] stCached5 (fun _ => "down") (fun _ => rfl)

/-- C6: `clearCache()` empties both tables; the next invocation for a
previously cached key re-invokes the producer (exactly one call when it
succeeds); and a producer call already dispatched is not cancelled — its
success continuation still writes its value into whatever the result table
holds at completion time (lines 36–38 run against the live table). -/
theorem throttle_c6 (cfg : Config) (args : List JsValue) (s s' : LState)
    (key : String) (v w : JsValue)
    (hok : cfg.producer args s.producerCalls = Except.ok v) :
    (clearCache s).promiseCache = [] ∧
    (clearCache s).resultCache = [] ∧
    (invoke cfg args (clearCache s)).2.producerCalls = s.producerCalls + 1 ∧
    cacheFind (recordSuccess key w s').resultCache key = some (s'.now, w) := by
  refine ⟨rfl, rfl, ?_, cacheFind_cons_self _ _ _ _⟩
  rw [invoke_dispatch_none cfg args (clearCache s) rfl]
  rw [dispatchAndReturn_ok cfg (cacheKeyOf args) args
    { clearCache s with totalCalls := (clearCache s).totalCalls + 1 } v hok]
  rfl

/-- C6 witness: after clearing a populated state, the next call makes a
producer call again, and a success completion lands in the cleared table. -/
theorem throttle_c6_witness :
    (clearCache stWarm).promiseCache = [] ∧
    (clearCache stWarm).resultCache = [] ∧
    (invoke cfgOk7 [] (clearCache stWarm)).2.producerCalls = 2 ∧
    cacheFind (recordSuccess "[]" (JsValue.num 7) (clearCache stWarm)).resultCache
      "[]" = some (0, JsValue.num 7) :=
  throttle_c6 cfgOk7 [] stWarm (clearCache stWarm) "[]" (JsValue.num 7)
    (JsValue.num 7) rfl

/-- C8: a report tick hands the handler exactly the current counters as a
snapshot and resets both counters to zero; consequently the next tick, after
any schedule of operations, reports exactly the invocations accumulated
since (the `totalCalls` component counts precisely the calls in between). -/
theorem throttle_c8 (cfg : Config) (s : LState) (ops : List Op) :
    (reportHitRate s).1 = ⟨s.totalCalls, s.gotThroughCalls⟩ ∧
    (reportHitRate s).2.totalCalls = 0 ∧
    (reportHitRate s).2.gotThroughCalls = 0 ∧
    (reportHitRate (runOps cfg (reportHitRate s).2 ops)).1.totalCalls
      = countCalls ops := by
  refine ⟨rfl, rfl, rfl, ?_⟩
  have h := runOps_totalCalls cfg ops (reportHitRate s).2
  simpa [reportHitRate] using h

/-- C1 counterexample: with an always-failing producer (`retryCount = 0`,
empty caches), a first call at time 0 dispatches and its promise settles
rejected; a second call at time 1 — well within the 100 ms refresh window of
the pending dispatch — does NOT attach to that dispatch: the wrapper sees
the rejected promise and dispatches again, so two producer calls occur where
the claim ("regardless of that call's eventual success or failure … exactly
one producer call occurs") asserts one. -/
theorem throttle_c1_counterexample :
    (runOps cfgDown initState
      [Op.call 0 [JsValue.num 1], Op.call 1 [JsValue.num 1]]).producerCalls = 2 ∧
    ¬ (runOps cfgDown initState
      [Op.call 0 [JsValue.num 1], Op.call 1 [JsValue.num 1]]).producerCalls = 1 := by
  constructor
  · rfl
  · decide

/-- C1 (amended): an invocation within `cacheRefreshPeriod` of the pending
dispatch attaches to that single producer call provided the dispatched
promise has not already rejected (after a successful dispatch, any number of
further invocations within the window cause no new producer call); an
invocation arriving after `cacheRefreshPeriod` has elapsed triggers exactly
one new producer call; but an invocation that finds the pending promise
already rejected (producer failed with no usable fallback) dispatches a new
producer call even within the window. -/
theorem throttle_c1_amended (cfg cfg2 : Config) (args : List JsValue)
    (v0 v1 : JsValue) (e : Nat → String) (t0 t1 t2 t3 u0 u1 : Nat)
    (hok0 : cfg.producer args 0 = Except.ok v0)
    (hok1 : cfg.producer args 1 = Except.ok v1)
    (h12 : t1 ≤ t2)
    (hwin : t2 - t0 ≤ cfg.cacheRefreshPeriod)
    (hout : cfg.cacheRefreshPeriod < t3 - t0)
    (herr : ∀ i, cfg2.producer args i = Except.error (e i))
    (hrc : cfg2.retryCount = 0)
    (huwin : u1 - u0 ≤ cfg2.cacheRefreshPeriod) :
    (runOps cfg initState
      [Op.call t0 args, Op.call t1 args, Op.call t2 args]).producerCalls = 1 ∧
    (runOps cfg initState
      [Op.call t0 args, Op.call t1 args, Op.call t2 args,
       Op.call t3 args]).producerCalls = 2 ∧
    (runOps cfg2 initState [Op.call u0 args, Op.call u1 args]).producerCalls = 2 := by
  have h1 : stepOp cfg initState (Op.call t0 args)
      = ⟨[(cacheKeyOf args, t0, Outcome.resolved v0)],
         [(cacheKeyOf args, t0, v0)], 1, 1, 1, t0⟩ :=
    congrArg Prod.snd
      ((invoke_dispatch_none cfg args { initState with now := t0 } rfl).trans
        (dispatchAndReturn_ok cfg (cacheKeyOf args) args ⟨[], [], 1, 0, 0, t0⟩ v0 hok0))
  have h2 : stepOp cfg
      ⟨[(cacheKeyOf args, t0, Outcome.resolved v0)],
       [(cacheKeyOf args, t0, v0)], 1, 1, 1, t0⟩ (Op.call t1 args)
      = ⟨[(cacheKeyOf args, t0, Outcome.resolved v0)],
         [(cacheKeyOf args, t0, v0)], 2, 1, 1, t1⟩ :=
    invoke_coalesce cfg args
      ⟨[(cacheKeyOf args, t0, Outcome.resolved v0)],
       [(cacheKeyOf args, t0, v0)], 1, 1, 1, t1⟩ t0 (Outcome.resolved v0)
      (by simp [cacheFind]) (by show t1 - t0 ≤ cfg.cacheRefreshPeriod; omega) rfl
  have h3 : stepOp cfg
      ⟨[(cacheKeyOf args, t0, Outcome.resolved v0)],
       [(cacheKeyOf args, t0, v0)], 2, 1, 1, t1⟩ (Op.call t2 args)
      = ⟨[(cacheKeyOf args, t0, Outcome.resolved v0)],
         [(cacheKeyOf args, t0, v0)], 3, 1, 1, t2⟩ :=
    invoke_coalesce cfg args
      ⟨[(cacheKeyOf args, t0, Outcome.resolved v0)],
       [(cacheKeyOf args, t0, v0)], 2, 1, 1, t2⟩ t0 (Outcome.resolved v0)
      (by simp [cacheFind]) (by show t2 - t0 ≤ cfg.cacheRefreshPeriod; omega) rfl
  have h4 : (stepOp cfg
      ⟨[(cacheKeyOf args, t0, Outcome.resolved v0)],
       [(cacheKeyOf args, t0, v0)], 3, 1, 1, t2⟩ (Op.call t3 args)).producerCalls = 2 :=
    congrArg LState.producerCalls (congrArg Prod.snd
      ((invoke_dispatch_none cfg args
          ⟨[(cacheKeyOf args, t0, Outcome.resolved v0)],
           [(cacheKeyOf args, t0, v0)], 3, 1, 1, t3⟩
          (lruGet_of_find_stale (show cacheFind [(cacheKeyOf args, t0, Outcome.resolved v0)] (cacheKeyOf args) = some (t0, Outcome.resolved v0) by simp [cacheFind]) (by show ¬ t3 - t0 ≤ cfg.cacheRefreshPeriod; omega))).trans
        (dispatchAndReturn_ok cfg (cacheKeyOf args) args
          ⟨[(cacheKeyOf args, t0, Outcome.resolved v0)],
           [(cacheKeyOf args, t0, v0)], 4, 1, 1, t3⟩ v1 hok1)))
  have k1 : stepOp cfg2 initState (Op.call u0 args)
      = ⟨[(cacheKeyOf args, u0, Outcome.rejected (e 0))], [], 1, 1, 1, u0⟩ := by
    have hc := congrArg Prod.snd
      ((invoke_dispatch_none cfg2 args { initState with now := u0 } rfl).trans
        (dispatchAndReturn_allFail cfg2 (cacheKeyOf args) args
          ⟨[], [], 1, 0, 0, u0⟩ e herr rfl))
    rw [hrc] at hc
    simpa using hc
  have k2 : (stepOp cfg2
      ⟨[(cacheKeyOf args, u0, Outcome.rejected (e 0))], [], 1, 1, 1, u0⟩
      (Op.call u1 args)).producerCalls = 2 := by
    have hc := congrArg LState.producerCalls (congrArg Prod.snd
      ((invoke_dispatch_rejected cfg2 args
          ⟨[(cacheKeyOf args, u0, Outcome.rejected (e 0))], [], 1, 1, 1, u1⟩
          (Outcome.rejected (e 0))
          (lruGet_of_find_fresh (show cacheFind [(cacheKeyOf args, u0, Outcome.rejected (e 0))] (cacheKeyOf args) = some (u0, Outcome.rejected (e 0)) by simp [cacheFind]) (by show u1 - u0 ≤ cfg2.cacheRefreshPeriod; omega)) rfl).trans
        (dispatchAndReturn_allFail cfg2 (cacheKeyOf args) args
          ⟨[(cacheKeyOf args, u0, Outcome.rejected (e 0))], [], 2, 1, 1, u1⟩
          e herr rfl)))
    rw [hrc] at hc
    exact hc
  refine ⟨?_, ?_, ?_⟩
  · simp only [runOps, List.foldl]
    rw [h1, h2, h3]
  · simp only [runOps, List.foldl]
    rw [h1, h2, h3, h4]
  · simp only [runOps, List.foldl]
    rw [k1, k2]

/-- C1 witness: constant-success producer, 60 s window: calls at 0, 1, 2 ms
coalesce (one producer call), a call at 60001 ms re-dispatches (two); and
with an always-failing producer, a call at 1 ms after a rejected dispatch at
0 ms also re-dispatches (two). -/
theorem throttle_c1_witness :
    (runOps cfgOk7 initState
      [Op.call 0 [], Op.call 1 [], Op.call 2 []]).producerCalls = 1 ∧
    (runOps cfgOk7 initState
      [Op.call 0 [], Op.call 1 [], Op.call 2 [], Op.call 60001 []]).producerCalls = 2 ∧
    (runOps cfgDown initState [Op.call 0 [], Op.call 1 []]).producerCalls = 2 :=
  throttle_c1_amended cfgOk7 cfgDown [] (JsValue.num 7) (JsValue.num 7)
    (fun _ => "down") 0 1 2 60001 0 1 rfl rfl (by decide) (by decide) (by decide)
    (fun _ => rfl) rfl (by decide)

/-- C9: a falsy producer result (here universally any `v` with
`jsFalsy v = true`, e.g. `0`) is cached and served like any other value: the
first call returns it; a second call within the refresh window returns it
with no new producer call; a third call after the window, whose refresh
attempt fails, still returns it as the stale fallback. -/
theorem throttle_c9 (cfg : Config) (args : List JsValue) (v : JsValue)
    (er : String) (t1 t2 : Nat)
    (_hfalsy : jsFalsy v = true)
    (hok : cfg.producer args 0 = Except.ok v)
    (herr : cfg.producer args 1 = Except.error er)
    (ht1R : t1 ≤ cfg.cacheRefreshPeriod)
    (ht1A : t1 ≤ cfg.cacheMaxAge)
    (ht2R : cfg.cacheRefreshPeriod < t2)
    (ht2A : t2 ≤ cfg.cacheMaxAge) :
    (invoke cfg args initState).1 = Outcome.resolved v ∧
    (invoke cfg args initState).2.producerCalls = 1 ∧
    (invoke cfg args { (invoke cfg args initState).2 with now := t1 }).1
      = Outcome.resolved v ∧
    (invoke cfg args { (invoke cfg args initState).2 with now := t1 }).2.producerCalls
      = 1 ∧
    (invoke cfg args { (invoke cfg args initState).2 with now := t2 }).1
      = Outcome.resolved v ∧
    (invoke cfg args { (invoke cfg args initState).2 with now := t2 }).2.producerCalls
      = 2 := by
  have h1 : invoke cfg args initState
      = (Outcome.resolved v,
         ⟨[(cacheKeyOf args, 0, Outcome.resolved v)],
          [(cacheKeyOf args, 0, v)], 1, 1, 1, 0⟩) :=
    (invoke_dispatch_none cfg args initState rfl).trans
      (dispatchAndReturn_ok cfg (cacheKeyOf args) args ⟨[], [], 1, 0, 0, 0⟩ v hok)
  have h2 : invoke cfg args { (invoke cfg args initState).2 with now := t1 }
      = (Outcome.resolved v,
         ⟨[(cacheKeyOf args, 0, Outcome.resolved v)],
          [(cacheKeyOf args, 0, v)], 2, 1, 1, t1⟩) := by
    rw [show ({ (invoke cfg args initState).2 with now := t1 } : LState)
        = ⟨[(cacheKeyOf args, 0, Outcome.resolved v)],
           [(cacheKeyOf args, 0, v)], 1, 1, 1, t1⟩ from by rw [congrArg Prod.snd h1]]
    exact invoke_coalesce_hit cfg args
      ⟨[(cacheKeyOf args, 0, Outcome.resolved v)],
       [(cacheKeyOf args, 0, v)], 1, 1, 1, t1⟩ 0 (Outcome.resolved v) v
      (by simp [cacheFind]) (by show t1 - 0 ≤ cfg.cacheRefreshPeriod; omega) rfl
      (lruGet_of_find_fresh (show cacheFind [(cacheKeyOf args, 0, v)] (cacheKeyOf args) = some (0, v) by simp [cacheFind]) (by show t1 - 0 ≤ cfg.cacheMaxAge; omega))
  have h3 : invoke cfg args { (invoke cfg args initState).2 with now := t2 }
      = (Outcome.resolved v,
         ⟨[(cacheKeyOf args, t2, Outcome.resolved v),
           (cacheKeyOf args, 0, Outcome.resolved v)],
          [(cacheKeyOf args, 0, v)], 2, 2, 2, t2⟩) := by
    rw [show ({ (invoke cfg args initState).2 with now := t2 } : LState)
        = ⟨[(cacheKeyOf args, 0, Outcome.resolved v)],
           [(cacheKeyOf args, 0, v)], 1, 1, 1, t2⟩ from by rw [congrArg Prod.snd h1]]
    exact (invoke_dispatch_none cfg args
        ⟨[(cacheKeyOf args, 0, Outcome.resolved v)],
         [(cacheKeyOf args, 0, v)], 1, 1, 1, t2⟩
        (lruGet_of_find_stale (show cacheFind [(cacheKeyOf args, 0, Outcome.resolved v)] (cacheKeyOf args) = some (0, Outcome.resolved v) by simp [cacheFind]) (by show ¬ t2 - 0 ≤ cfg.cacheRefreshPeriod; omega))).trans
      (dispatchAndReturn_fallback cfg (cacheKeyOf args) args
        ⟨[(cacheKeyOf args, 0, Outcome.resolved v)],
         [(cacheKeyOf args, 0, v)], 2, 1, 1, t2⟩ v er herr
        (lruGet_of_find_fresh (show cacheFind [(cacheKeyOf args, 0, v)] (cacheKeyOf args) = some (0, v) by simp [cacheFind]) (by show t2 - 0 ≤ cfg.cacheMaxAge; omega)))
  refine ⟨?_, ?_, ?_, ?_, ?_, ?_⟩
  · rw [congrArg Prod.fst h1]
  · rw [congrArg Prod.snd h1]
  · rw [congrArg Prod.fst h2]
  · rw [congrArg Prod.snd h2]
  · rw [congrArg Prod.fst h3]
  · rw [congrArg Prod.snd h3]

/-- C9 witness: producer resolves the falsy `0` once then fails; calls at
0, 50 and 150 ms (window 100 ms, max age 1000 ms) all return `0`, with one
producer call for the first two and a second (failing) call for the third. -/
theorem throttle_c9_witness :
    (invoke cfgFalsy [] initState).1 = Outcome.resolved (JsValue.num 0) ∧
    (invoke cfgFalsy [] initState).2.producerCalls = 1 ∧
    (invoke cfgFalsy [] { (invoke cfgFalsy [] initState).2 with now := 50 }).1
      = Outcome.resolved (JsValue.num 0) ∧
    (invoke cfgFalsy [] { (invoke cfgFalsy [] initState).2 with now := 50 }).2.producerCalls
      = 1 ∧
    (invoke cfgFalsy [] { (invoke cfgFalsy [] initState).2 with now := 150 }).1
      = Outcome.resolved (JsValue.num 0) ∧
    (invoke cfgFalsy [] { (invoke cfgFalsy [] initState).2 with now := 150 }).2.producerCalls
      = 2 :=
  throttle_c9 cfgFalsy [] (JsValue.num 0) "down" 50 150 rfl rfl rfl
    (by decide) (by decide) (by decide) (by decide)

/-- C10: `clearCache` touches only the two cache tables — the hit-rate
counters are unchanged, so a tick after a clear still reports invocations
counted before it. -/
theorem throttle_c10 (s : LState) :
    (clearCache s).totalCalls = s.totalCalls ∧
    (clearCache s).gotThroughCalls = s.gotThroughCalls ∧
    (reportHitRate (clearCache s)).1 = ⟨s.totalCalls, s.gotThroughCalls⟩ :=
  ⟨rfl, rfl, rfl⟩

/-! ## Key canonicalization lemmas (for C7) -/

theorem leChars_total : ∀ as bs : List Char,
    leChars as bs = true ∨ leChars bs as = true := by
  intro as
  induction as with
  | nil => intro bs; left; rfl
  | cons a as ih =>
    intro bs
    cases bs with
    | nil => right; rfl
    | cons b bs =>
      simp only [leChars]
      rcases Nat.lt_trichotomy a.toNat b.toNat with h | h | h
      · left
        simp [h]
      · have h1 : ¬ a.toNat < b.toNat := by omega
        have h2 : ¬ b.toNat < a.toNat := by omega
        simp only [h1, h2, if_false]
        exact ih bs
      · right
        simp [h]

theorem leChars_trans : ∀ as bs cs : List Char,
    leChars as bs = true → leChars bs cs = true → leChars as cs = true := by
  intro as
  induction as with
  | nil => intro bs cs _ _; rfl
  | cons a as ih =>
    intro bs cs h1 h2
    cases bs with
    | nil => simp [leChars] at h1
    | cons b bs =>
      cases cs with
      | nil => simp [leChars] at h2
      | cons c cs =>
        simp only [leChars] at h1 h2 ⊢
        rcases Nat.lt_trichotomy a.toNat c.toNat with hac | hac | hac
        · simp [hac]
        · have n1 : ¬ a.toNat < c.toNat := by omega
          have n2 : ¬ c.toNat < a.toNat := by omega
          simp only [n1, n2, if_false]
          rcases Nat.lt_trichotomy a.toNat b.toNat with hab | hab | hab
          · rcases Nat.lt_trichotomy b.toNat c.toNat with hbc | hbc | hbc
            · omega
            · omega
            · simp [show ¬ b.toNat < c.toNat by omega, hbc] at h2
          · have m1 : ¬ a.toNat < b.toNat := by omega
            have m2 : ¬ b.toNat < a.toNat := by omega
            have m3 : ¬ b.toNat < c.toNat := by omega
            have m4 : ¬ c.toNat < b.toNat := by omega
            simp only [m1, m2, if_false] at h1
            simp only [m3, m4, if_false] at h2
            exact ih bs cs h1 h2
          · simp [show ¬ a.toNat < b.toNat by omega, hab] at h1
        · rcases Nat.lt_trichotomy a.toNat b.toNat with hab | hab | hab
          · rcases Nat.lt_trichotomy b.toNat c.toNat with hbc | hbc | hbc
            · omega
            · omega
            · simp [show ¬ b.toNat < c.toNat by omega, hbc] at h2
          · simp [show ¬ b.toNat < c.toNat by omega,
              show c.toNat < b.toNat by omega] at h2
          · simp [show ¬ a.toNat < b.toNat by omega, hab] at h1

theorem fieldLe_total {α : Type} : ∀ p q : String × α, fieldLe p q ∨ fieldLe q p :=
  fun p q => leChars_total p.1.data q.1.data

theorem fieldLe_trans {α : Type} :
    ∀ p q r : String × α, fieldLe p q → fieldLe q r → fieldLe p r :=
  fun p q r h1 h2 => leChars_trans p.1.data q.1.data r.1.data h1 h2

/-- Sorting the fields twice is the same as sorting once (insertion sort
fixes sorted lists). -/
theorem sortFields_idem {α : Type} (l : List (String × α)) :
    sortFields (sortFields l) = sortFields l := by
  haveI : IsTotal (String × α) fieldLe := ⟨fieldLe_total⟩
  haveI : IsTrans (String × α) fieldLe := ⟨fun p q r => fieldLe_trans p q r⟩
  exact List.Sorted.insertionSort_eq (List.sorted_insertionSort fieldLe l)

/-- A key-preserving map commutes with ordered insertion (the order looks
only at the keys). -/
theorem orderedInsert_map {α β : Type} (g : α → β) (a : String × α) :
    ∀ l : List (String × α),
      (List.orderedInsert fieldLe a l).map (fun f => (f.1, g f.2))
        = List.orderedInsert fieldLe (a.1, g a.2)
            (l.map (fun f => (f.1, g f.2))) := by
  intro l
  induction l with
  | nil => rfl
  | cons b l ih =>
    simp only [List.orderedInsert, List.map]
    by_cases h : fieldLe a b
    · rw [if_pos h, if_pos (show fieldLe (a.1, g a.2) (b.1, g b.2) from h)]
      rfl
    · rw [if_neg h, if_neg (show ¬ fieldLe (a.1, g a.2) (b.1, g b.2) from h)]
      simp only [List.map]
      rw [ih]

/-- A key-preserving map commutes with sorting by key. -/
theorem sortFields_map {α β : Type} (g : α → β) :
    ∀ l : List (String × α),
      sortFields (l.map (fun f => (f.1, g f.2)))
        = (sortFields l).map (fun f => (f.1, g f.2)) := by
  intro l
  induction l with
  | nil => rfl
  | cons a l ih =>
    simp only [sortFields, List.map, List.insertionSort] at ih ⊢
    rw [ih, ← orderedInsert_map]

theorem stringifyFields_eq_map : ∀ fs : List (String × JsValue),
    stringifyFields fs = fs.map (fun f => (f.1, stableStringify f.2)) := by
  intro fs
  induction fs with
  | nil => rfl
  | cons f fs ih => simp [stringifyFields, ih]

/-- Serializing the fields of a sorted list is the sorted serialization. -/
theorem stringifyFields_sortFields (l : List (String × JsValue)) :
    stringifyFields (sortFields l) = sortFields (stringifyFields l) := by
  rw [stringifyFields_eq_map, stringifyFields_eq_map, sortFields_map]

mutual
/-- Canonicalization does not change the stable serialization: sorting the
object fields first is exactly what the serializer does anyway. -/
theorem stringify_canon : ∀ v : JsValue,
    stableStringify (canon v) = stableStringify v
  | .undefined => rfl
  | .null => rfl
  | .bool b => rfl
  | .num n => rfl
  | .str s => rfl
  | .arr xs => by
      simp only [canon, stableStringify, stringifyElems_canon xs]
  | .obj fs => by
      simp only [canon, stableStringify]
      rw [stringifyFields_sortFields, sortFields_idem, stringifyFields_canon fs]

theorem stringifyElems_canon : ∀ xs : List JsValue,
    stringifyElems (canonElems xs) = stringifyElems xs
  | [] => rfl
  | x :: xs => by
      simp only [canonElems, stringifyElems, stringify_canon x,
        stringifyElems_canon xs]

theorem stringifyFields_canon : ∀ fs : List (String × JsValue),
    stringifyFields (canonFields fs) = stringifyFields fs
  | [] => rfl
  | f :: fs => by
      simp only [canonFields, stringifyFields, stringify_canon f.2,
        stringifyFields_canon fs]
end

/-- C7 counterexample: `[undefined]` and `[null]` are structurally distinct
argument lists (no field reordering relates them), but both serialize to
`"[null]"`, so they map to the same cache key — the claimed "only if"
direction (structurally distinct lists yield distinct keys) is false. -/
theorem throttle_c7_counterexample :
    cacheKeyOf [JsValue.undefined] = cacheKeyOf [JsValue.null] ∧
    canon (JsValue.arr [JsValue.undefined]) ≠ canon (JsValue.arr [JsValue.null]) := by
  constructor
  · rfl
  · simp [canon, canonElems]

/-- C7 (amended): key derivation is sound for the equivalence — argument
lists that are deeply structurally equal up to object-field ordering (equal
canonical forms) map to equal cache keys; the converse fails (serialization
conflates `undefined` with `null` inside arrays, and the digest may
collide), so distinct lists need not yield distinct keys. -/
theorem throttle_c7_amended (a b : List JsValue)
    (h : canon (JsValue.arr a) = canon (JsValue.arr b)) :
    cacheKeyOf a = cacheKeyOf b := by
  unfold cacheKeyOf
  rw [← stringify_canon (JsValue.arr a), ← stringify_canon (JsValue.arr b), h]

/-- C7 witness: reordering the fields of a nested object yields the same
cache key. -/
theorem throttle_c7_witness :
    cacheKeyOf [JsValue.obj [("b", JsValue.num 2), ("a", JsValue.num 1)]]
      = cacheKeyOf [JsValue.obj [("a", JsValue.num 1), ("b", JsValue.num 2)]] :=
  throttle_c7_amended _ _ (by rfl)
